import Mathlib

/-!
Shallow embedding of the PVMantz dispatcher (master `src/PBala.c`, worker
`task_fork.c`, status codes `antz_errcodes.h`) and proofs about the claims of
its specification.

Modelling conventions:
- PVM typed pack/unpack buffers are modelled as `List PvmVal`; `pvm_pkint`,
  `pvm_pklong`, `pvm_pkstr`, `pvm_pkdouble` append the corresponding
  constructor, and the `pvm_upk*` calls consume from the front.  The PVM
  transport delivers a packed buffer byte-for-byte, so a received message is
  the same `List PvmVal` the sender packed.
- C `double` payloads (exec times, worker lifetimes) are modelled as `Rat`;
  no claim depends on floating-point rounding, only on whether a double is
  present in a message and on how the master routes it.
- The master's interaction with the slaves is modelled as a message trace
  (`runTrace`): the environment chooses, for every `pvm_recv(-1, MSG_RESULT)`,
  which slot's message arrives (`choice`), subject to `ValidChoice` (only a
  slot with outstanding work can report, and in the final drain each busy slot
  reports exactly once).
-/

namespace PBala

/-! ## Status codes (`antz_errcodes.h`) -/

/-- Status a slave returns on fork failure, `antz_errcodes.h` line 62. -/
def ST_FORK_ERR : Int := 10

/-- Status a slave returns for a killed task, `antz_errcodes.h` line 66. -/
def ST_TASK_KILLED : Int := 11

/-- Modelled from the spec: `PBala.c` includes `PBala_errcodes.h`, which is not
in the tree; `ST_MEM_ERR` is the memory-gate rejection status (spec status
`MEM_ERR`), a code distinct from OK (0), from the raw fork-failure value 1 the
worker sends, and from `ST_FORK_ERR` (10) and `ST_TASK_KILLED` (11). -/
def ST_MEM_ERR : Int := 12

/-- Success state packed by the worker on the normal path,
`task_fork.c` line 228 (`int state=0`); the spec's status `OK`. -/
def ST_OK : Int := 0

/-! ## PVM message buffers -/

/-- One value in a packed PVM message buffer. -/
inductive PvmVal where
  | vint (n : Int)
  | vlong (n : Int)
  | vstr (s : String)
  | vdouble (q : Rat)
deriving DecidableEq

/-- Semantics of `pvm_upkint`: consume a leading packed int. -/
def upkInt : List PvmVal → Option (Int × List PvmVal)
  | .vint n :: r => some (n, r)
  | _ => none

/-- Semantics of `pvm_upklong`: consume a leading packed long. -/
def upkLong : List PvmVal → Option (Int × List PvmVal)
  | .vlong n :: r => some (n, r)
  | _ => none

/-- Semantics of `pvm_upkstr`: consume a leading packed string. -/
def upkStr : List PvmVal → Option (String × List PvmVal)
  | .vstr s :: r => some (s, r)
  | _ => none

/-- Semantics of `pvm_upkdouble`: consume a leading packed double. -/
def upkDouble : List PvmVal → Option (Rat × List PvmVal)
  | .vdouble q :: r => some (q, r)
  | _ => none

/-- Whether a packed buffer contains any string value. -/
def hasStr (l : List PvmVal) : Bool :=
  l.any fun v => match v with | .vstr _ => true | _ => false

/-- Whether a packed buffer contains any double value. -/
def hasDouble (l : List PvmVal) : Bool :=
  l.any fun v => match v with | .vdouble _ => true | _ => false

/-! ## Worker (`task_fork.c`) -/

/-- What the `waitid` call on `task_fork.c` line 222 can report about the
child: a normal exit with a code, or death by a signal. -/
inductive ChildOutcome where
  | exited (code : Int)
  | killedBySignal (sig : Int)
deriving DecidableEq

/-- Result message the worker packs after waiting for the forked child,
`task_fork.c` lines 220-233: `waitid` fills `infop` (line 222) but the code
never reads it, and it packs `me`, `taskNumber` and `state = 0` (line 228)
unconditionally — the outcome of the child is ignored, no status
classification happens and no exec-time double is packed. -/
def taskResultMsg (me taskNumber : Int) (outcome : ChildOutcome) : List PvmVal :=
  [.vint me, .vint taskNumber, .vint 0]

/-- Fork-failure path, `task_fork.c` lines 93-103: pack `me`, `taskNumber`
and `state = 1` (line 95), send `MSG_RESULT`, then `pvm_exit(); exit(1)`.
The second component records that the worker process terminates. -/
def forkFailReply (me taskNumber : Int) : List PvmVal × Bool :=
  ([.vint me, .vint taskNumber, .vint 1], true)

/-- The three greeting fields the worker unpacks, `task_fork.c` lines 56-58. -/
structure GreetingDecoded where
  me : Int
  taskType : Int
  maxTaskSize : Int
deriving DecidableEq

/-- Worker side of the greeting, `task_fork.c` lines 55-58: `pvm_upkint(&me)`,
`pvm_upkint(&task_type)`, `pvm_upklong(&max_task_size)` — nothing else is
unpacked from the greeting buffer. -/
def workerDecodeGreeting (msg : List PvmVal) : Option GreetingDecoded := do
  let (me, r1) ← upkInt msg
  let (tt, r2) ← upkInt r1
  let (ms, _) ← upkLong r2
  return ⟨me, tt, ms⟩

/-- File-creation request of a child redirection: path and `open` mode. -/
structure RedirSpec where
  path : String
  mode : Nat
deriving DecidableEq

/-- Child stderr redirection, `task_fork.c` lines 115-118:
`sprintf(output_file,"%s/%d_err.txt",out_dir,taskNumber)` then
`open(output_file,O_WRONLY|O_CREAT,0666)` and `dup2(fd,2)`.  It takes no
flags: the redirection is performed on every forked task. -/
def childStderrRedirect (outDir : String) (taskNumber : Int) : RedirSpec :=
  ⟨outDir ++ "/" ++ toString taskNumber ++ "_err.txt", 0o666⟩

/-! ## Master greeting (`PBala.c` lines 366-375) -/

/-- Greeting buffer the master packs for a freshly spawned slave,
`PBala.c` lines 366-374: slot index, task type, max memory size (long),
create-err flag, create-mem flag, custom-path flag, and, when the
custom-path flag is nonzero, the program path string. -/
def greetingMsg (slot taskType maxMemSize createErr createMem customPath : Int)
    (programPath : String) : List PvmVal :=
  [.vint slot, .vint taskType, .vlong maxMemSize, .vint createErr,
   .vint createMem, .vint customPath]
  ++ (if customPath ≠ 0 then [.vstr programPath] else [])

/-! ## Master result handling (`PBala.c` lines 466-504 and 629-666) -/

/-- Effect of the master's classification of one received result:
the line appended to `unfinished_tasks.txt` (if any), whether a
`TASK_COMPLETED` line is printed, and whether an exec-time double is
unpacked from the message. -/
structure ClassifyEffect where
  appended : Option String
  completedLog : Bool
  readExecTime : Bool
deriving DecidableEq

/-- Line format of `unfinished_tasks.txt`,
`fprintf(unfinishedTasks, "%d,%s\n", taskNumber, aux_str)`
(`PBala.c` lines 478, 486, 497, 640, 649, 659). -/
def unfinishedLine (taskNumber : Int) (rawArgs : String) : String :=
  toString taskNumber ++ "," ++ rawArgs

/-- Master classification of a received result status, `PBala.c`
lines 473-504 (steady loop) and 635-666 (drain loop): `ST_MEM_ERR` and
`ST_FORK_ERR` append to `unfinished_tasks.txt` without unpacking a double;
every other status first unpacks `exec_time`, then `ST_TASK_KILLED` appends
to `unfinished_tasks.txt` while anything else logs `TASK_COMPLETED`. -/
def masterClassify (status taskNumber : Int) (rawArgs : String) : ClassifyEffect :=
  if status = ST_MEM_ERR then
    ⟨some (unfinishedLine taskNumber rawArgs), false, false⟩
  else if status = ST_FORK_ERR then
    ⟨some (unfinishedLine taskNumber rawArgs), false, false⟩
  else if status = ST_TASK_KILLED then
    ⟨some (unfinishedLine taskNumber rawArgs), false, true⟩
  else
    ⟨none, true, true⟩

/-- Fields of one received result as the master unpacks them,
`PBala.c` lines 468-471 / 630-633. -/
structure RecvResult where
  status : Int
  taskNumber : Int
  rawArgs : String
deriving DecidableEq

/-- Content of `unfinished_tasks.txt` at the end of a run: the file is
truncated at `PBala.c` lines 462-463 (`fopen` with `"w"`), and every
received result appends its classification line, in the order the results
are observed. -/
def masterRecordResults (results : List RecvResult) : List String :=
  results.foldl
    (fun file r => file ++ ((masterClassify r.status r.taskNumber r.rawArgs).appended).toList)
    []

/-- Master drain-loop unpack sequence for one result, `PBala.c` lines
630-633 (`itid`, `taskNumber`, `status`, `aux_str`), line 653 (`exec_time`,
only when the status is neither `ST_MEM_ERR` nor `ST_FORK_ERR`) and line 667
(`total_time`, the worker lifetime, unpacked from every drain result). -/
def masterUnpackDrain (msg : List PvmVal) :
    Option (Int × Int × Int × String × Option Rat × Rat) := do
  let (itid, r1) ← upkInt msg
  let (tn, r2) ← upkInt r1
  let (status, r3) ← upkInt r2
  let (ra, r4) ← upkStr r3
  if status = ST_MEM_ERR ∨ status = ST_FORK_ERR then
    let (tt, _) ← upkDouble r4
    return (itid, tn, status, ra, none, tt)
  else
    let (et, r5) ← upkDouble r4
    let (tt, _) ← upkDouble r5
    return (itid, tn, status, ra, some et, tt)

/-! ## Data-line parsing for dispatch (`PBala.c` lines 398-419) -/

/-- C `isspace` on the characters `sscanf` skips before `%d`. -/
def isSpaceC (c : Char) : Bool :=
  c == ' ' || c == '\t' || c == '\n' || c == '\x0b' || c == '\x0c' || c == '\r'

/-- Leading decimal digits of a character list. -/
def takeDigits (cs : List Char) : List Char := cs.takeWhile Char.isDigit

/-- Numeric value of a list of decimal digit characters. -/
def digitsVal (ds : List Char) : Nat :=
  ds.foldl (fun a c => 10 * a + (c.toNat - 48)) 0

/-- Semantics of `sscanf(buffer, "%d", &taskNumber)` on the data line,
`PBala.c` lines 400 and 510: skip whitespace, accept an optional sign, then
require at least one decimal digit; the conversion value is the signed value
of the digit run. -/
def sscanfD (cs : List Char) : Option Int :=
  let t := cs.dropWhile isSpaceC
  match t with
  | '-' :: r => if takeDigits r = [] then none else some (-(digitsVal (takeDigits r) : Int))
  | '+' :: r => if takeDigits r = [] then none else some (digitsVal (takeDigits r))
  | _ => if takeDigits t = [] then none else some (digitsVal (takeDigits t))

/-- Task id and raw-argument string the master packs for one data line,
`PBala.c` lines 400-419 (and identically 510-526): `sscanf` the first column
into `taskNumber` (abort on failure), `sprintf(aux_str,"%d",taskNumber)` and
take its length `aux_size`, overwrite the last character of the line with a
terminator (`buffer[strlen(buffer)-1] = 0`), then copy the line starting at
offset `aux_size + 1` into the packed argument string.  The worker unpacks
this string byte-for-byte (`task_fork.c` line 85). -/
def dispatchRawArgs (line : String) : Option (Int × String) :=
  match sscanfD line.data with
  | none => none
  | some id =>
    let auxSize := (toString id).length
    let stripped := line.data.dropLast
    some (id, String.mk (stripped.drop (auxSize + 1)))

/-- Raw-argument extraction as the claim words it: the content of the data
line after the first comma, with only the trailing newline removed. -/
def claimRawArgs (line : String) : String :=
  let noNl := if line.data.getLast? = some '\n' then line.data.dropLast else line.data
  String.mk ((noNl.dropWhile (fun c => c ≠ ',')).drop 1)

/-! ## PVM daemon start with duplicate-host retry (`PBala.c` lines 277-286) -/

/-- Observable actions of the daemon bring-up loop. -/
inductive PvmdAct where
  | attempt (k : Nat)
  | halt
  | rmScratch
deriving DecidableEq

/-- Daemon bring-up loop, `PBala.c` lines 277-286.  `outcome k = true` means
the `k`-th `pvm_start_pvmd` call reports `PvmDupHost`.  On every duplicate
report the master runs `pvm_halt()` and `system("rm -f /tmp/pvm*")`, then
gives up with `E_PVM_DUP` once `start_tries` exceeds 3; `budget` is the
number of further duplicate reports tolerated (`3 - start_tries` initially).
The result is `some n` with `n` the number of attempts made when the daemon
starts, `none` when the loop returns `E_PVM_DUP`. -/
def pvmdLoop (outcome : Nat → Bool) : Nat → Nat → List PvmdAct × Option Nat
  | k, 0 =>
    if outcome k then ([.attempt k, .halt, .rmScratch], none)
    else ([.attempt k], some (k + 1))
  | k, b + 1 =>
    if outcome k then
      let rest := pvmdLoop outcome (k + 1) b
      (.attempt k :: .halt :: .rmScratch :: rest.1, rest.2)
    else ([.attempt k], some (k + 1))

/-- Whole bring-up: first attempt with `start_tries = 0`, so three more
duplicate reports are tolerated after the first. -/
def pvmdStart (outcome : Nat → Bool) : List PvmdAct × Option Nat :=
  pvmdLoop outcome 0 3

/-! ## Master message trace (`PBala.c` lines 347-676)

The scheduling loop, abstracted over the data payloads: a `work` or `result`
message carries the 0-based index of the data-file line it serves.  The
per-result classification and the packed fields are modelled above; here
only the slot/line structure of the dialogue matters. -/

/-- One message of the master ↔ slave dialogue, tagged with the slot. -/
inductive Msg where
  | greeting (slot : Nat)
  | work (slot : Nat) (line : Nat)
  | result (slot : Nat) (line : Nat)
  | stop (slot : Nat)
deriving DecidableEq

/-- Total number of slots, `PBala.c` lines 312-315:
`maxConcurrentTasks = Σ nodeCores[i]`. -/
def maxConcurrentTasks (nodeCores : List Nat) : Nat := nodeCores.sum

/-- Spawn phase, `PBala.c` lines 352-388: one slave per core, slot indices
`itid` assigned densely node-major, each sent one `MSG_GREETING`. -/
def greetPhase (M : Nat) : List Msg := (List.range M).map Msg.greeting

/-- First batch, `PBala.c` lines 395-451: data line `i` is sent as a
`MSG_WORK` to slot `i`, for `i < firstBatchSize = min nTasks
maxConcurrentTasks` (`fgets` succeeds on each of these lines because
`nTasks` is the line count of the data file). -/
def firstBatch (N : Nat) : List Msg := (List.range N).map (fun i => Msg.work i i)

/-- Steady-state loop, `PBala.c` lines 464-559: each iteration receives one
result from the slot the environment picks (`choice k` for the `k`-th
receive of the run), then reads the next data line and sends it as work to
that same slot (`pvm_send(taskId[itid], MSG_WORK)`, line 551).  `asg`
records which data line each slot is currently running; `nxt` is the index
of the next unread data line; `r` is the number of remaining iterations. -/
def steadyPhase (choice : Nat → Nat) : Nat → Nat → Nat → List Nat → List Msg × List Nat
  | _, _, 0, asg => ([], asg)
  | k, nxt, r + 1, asg =>
    let s := choice k
    let rest := steadyPhase choice (k + 1) (nxt + 1) r (asg.set s nxt)
    (Msg.result s (asg.getD s 0) :: Msg.work s nxt :: rest.1, rest.2)

/-- Drain loop, `PBala.c` lines 626-676: `firstBatchSize` more receives; each
one is answered with a `MSG_STOP` to the slot that reported
(`pvm_send(taskId[itid], MSG_STOP)`, line 671). -/
def drainPhase (choice : Nat → Nat) : Nat → Nat → List Nat → List Msg
  | _, 0, _ => []
  | k, r + 1, asg =>
    let s := choice k
    Msg.result s (asg.getD s 0) :: Msg.stop s :: drainPhase choice (k + 1) r asg

/-- Whole run of the master, `PBala.c` lines 347-676: greetings to all `M`
slots, first batch of `N = min T M` work messages, `T - N` steady-state
iterations, then the drain of the `N` outstanding results.  `T` is `nTasks`,
the line count of the data file. -/
def runTrace (M T : Nat) (choice : Nat → Nat) : List Msg :=
  let N := min T M
  let st := steadyPhase choice 0 N (T - N) (List.range N)
  greetPhase M ++ firstBatch N ++ st.1 ++ drainPhase choice (T - N) N st.2

/-- Environment validity for the receive choices of a run: only a slot with
outstanding work can deliver a result, and the slots with outstanding work
are exactly `0 … min T M - 1` throughout (each steady-state receive re-busies
the same slot); in the drain (receives `T - min T M` onward) every busy slot
delivers exactly once, so the drain choices are pairwise distinct. -/
def ValidChoice (M T : Nat) (choice : Nat → Nat) : Prop :=
  (∀ k, k < T → choice k < min T M) ∧
  (∀ k₁, k₁ < T → ∀ k₂, k₂ < T →
    T - min T M ≤ k₁ → k₁ < k₂ → choice k₁ ≠ choice k₂)

instance (M T : Nat) (choice : Nat → Nat) : Decidable (ValidChoice M T choice) := by
  unfold ValidChoice; infer_instance

/-- Recognize a greeting to slot `i`. -/
def isGreetTo (i : Nat) : Msg → Bool
  | .greeting s => s == i
  | _ => false

/-- Recognize a work message to slot `i`. -/
def isWorkTo (i : Nat) : Msg → Bool
  | .work s _ => s == i
  | _ => false

/-- Recognize a result from slot `i`. -/
def isResultFrom (i : Nat) : Msg → Bool
  | .result s _ => s == i
  | _ => false

/-- Recognize a stop message to slot `i`. -/
def isStopTo (i : Nat) : Msg → Bool
  | .stop s => s == i
  | _ => false

/-- Recognize any greeting. -/
def isGreetMsg : Msg → Bool
  | .greeting _ => true
  | _ => false

/-- Recognize any work message. -/
def isWorkMsg : Msg → Bool
  | .work _ _ => true
  | _ => false

/-- Recognize any result message. -/
def isResultMsg : Msg → Bool
  | .result _ _ => true
  | _ => false

/-- Recognize any stop message. -/
def isStopMsg : Msg → Bool
  | .stop _ => true
  | _ => false

/-- Number of greetings a trace delivers to slot `i`. -/
def countGreet (tr : List Msg) (i : Nat) : Nat := tr.countP (isGreetTo i)

/-- Number of work messages a trace delivers to slot `i`. -/
def countWork (tr : List Msg) (i : Nat) : Nat := tr.countP (isWorkTo i)

/-- Number of results a trace carries from slot `i`. -/
def countResult (tr : List Msg) (i : Nat) : Nat := tr.countP (isResultFrom i)

/-- Number of stop messages a trace delivers to slot `i`. -/
def countStop (tr : List Msg) (i : Nat) : Nat := tr.countP (isStopTo i)

/-- Work messages of a trace in order, as (slot, data line) pairs. -/
def worksOf : List Msg → List (Nat × Nat)
  | [] => []
  | .work s t :: r => (s, t) :: worksOf r
  | _ :: r => worksOf r

/-! ## Theorems -/

/-- C1: the claim says the worker classifies the outcome after `waitid` as
`TASK_KILLED` on abnormal termination, `OK` otherwise, and includes the
child's wall-clock duration `exec_time_s` in the result.  The code does
neither: evaluating the worker's result message for a child killed by
SIGKILL (slot 0, task 7) shows it packs status `0` (= `ST_OK`) — which is
not `ST_TASK_KILLED` — and contains no double at all, so no `exec_time_s`
is sent.  `task_fork.c` lines 220-233 never inspect the `siginfo_t` that
`waitid` fills and pack `state = 0` unconditionally. -/
theorem c1_killed_child_reported_as_ok :
    taskResultMsg 0 7 (ChildOutcome.killedBySignal 9)
      = [.vint 0, .vint 7, .vint ST_OK]
    ∧ ST_OK ≠ ST_TASK_KILLED
    ∧ hasDouble (taskResultMsg 0 7 (ChildOutcome.killedBySignal 9)) = false :=
  ⟨rfl, by decide, rfl⟩

/-- C4: the claim says every `MSG_RESULT` carries slot, task id, status and
`raw_args`, plus `exec_time_s` for OK/killed results and
`worker_lifetime_s` on the final one.  The worker's actual result message
(here: slot 0, task 1, child exited normally) is three ints only — no
string and no double — and the master's drain-side unpack sequence
(`int,int,int,str,double,double`) fails on it.  Only the master half of the
claim (the `total_total_time` accumulation at `PBala.c` lines 667-675) is
real. -/
theorem c4_result_msg_lacks_claimed_fields :
    taskResultMsg 0 1 (ChildOutcome.exited 0) = [.vint 0, .vint 1, .vint ST_OK]
    ∧ hasStr (taskResultMsg 0 1 (ChildOutcome.exited 0)) = false
    ∧ hasDouble (taskResultMsg 0 1 (ChildOutcome.exited 0)) = false
    ∧ masterUnpackDrain (taskResultMsg 0 1 (ChildOutcome.exited 0)) = none :=
  ⟨rfl, rfl, rfl, rfl⟩

/-- C5: the claim says that on fork failure the worker reports
`{slot, task_id, status=FORK_ERR, raw_args}` and terminates.  The worker
does terminate (second component `true`), but the message it sends (here:
slot 0, task 3) carries the literal status `1`, which is not
`ST_FORK_ERR` (= 10, `antz_errcodes.h` line 62), and no `raw_args`
string. -/
theorem c5_fork_failure_reply_fields :
    forkFailReply 0 3 = ([.vint 0, .vint 3, .vint 1], true)
    ∧ (1 : Int) ≠ ST_FORK_ERR
    ∧ hasStr (forkFailReply 0 3).1 = false :=
  ⟨rfl, by decide, rfl⟩

/-- C10: the worker unpacks exactly (slot, task class, max task size) from
any greeting the master packs, whatever the `create_err`, `create_mem` and
`custom_path` fields (and optional path) are, and the child's stderr is
redirected to `<out_dir>/<task_id>_err.txt` opened with mode 0666
unconditionally. -/
theorem c10_greeting_flags_ignored (slot taskType maxMemSize createErr createMem
    customPath : Int) (programPath outDir : String) (taskNumber : Int) :
    workerDecodeGreeting
        (greetingMsg slot taskType maxMemSize createErr createMem customPath programPath)
      = some ⟨slot, taskType, maxMemSize⟩
    ∧ childStderrRedirect outDir taskNumber
      = ⟨outDir ++ "/" ++ toString taskNumber ++ "_err.txt", 0o666⟩ :=
  ⟨rfl, rfl⟩

/-- C9: any received status that is none of `ST_MEM_ERR`, `ST_FORK_ERR`,
`ST_TASK_KILLED` makes the master unpack an exec time and log
`TASK_COMPLETED`, appending nothing to `unfinished_tasks.txt`; in
particular the status value `1`, which is exactly what the worker packs on
fork failure (third value of `forkFailReply`), lands in this completed
branch. -/
theorem c9_unknown_status_lands_in_completed (status taskNumber : Int) (rawArgs : String)
    (h1 : status ≠ ST_MEM_ERR) (h2 : status ≠ ST_FORK_ERR) (h3 : status ≠ ST_TASK_KILLED) :
    masterClassify status taskNumber rawArgs = ⟨none, true, true⟩
    ∧ masterClassify 1 taskNumber rawArgs = ⟨none, true, true⟩
    ∧ (forkFailReply 0 5).1.getD 2 (.vint 99) = .vint 1 := by
  refine ⟨by simp [masterClassify, h1, h2, h3], ?_, rfl⟩
  norm_num [masterClassify, ST_MEM_ERR, ST_FORK_ERR, ST_TASK_KILLED]

/-- C9 witness: the completed branch at the concrete statuses 42 and 1. -/
theorem c9_witness :
    masterClassify 42 5 "a,b" = ⟨none, true, true⟩
    ∧ masterClassify 1 5 "a,b" = ⟨none, true, true⟩
    ∧ (forkFailReply 0 5).1.getD 2 (.vint 99) = .vint 1 :=
  c9_unknown_status_lands_in_completed 42 5 "a,b" (by decide) (by decide) (by decide)

/-- Folding the master's per-result classification from any accumulated file
content appends exactly the lines of the non-`ST_OK` results, provided every
status is one of the four codes the protocol uses. -/
theorem record_results_from (acc : List String) (results : List RecvResult)
    (h : ∀ r ∈ results, r.status = ST_OK ∨ r.status = ST_MEM_ERR ∨
      r.status = ST_FORK_ERR ∨ r.status = ST_TASK_KILLED) :
    results.foldl
        (fun file r => file ++ ((masterClassify r.status r.taskNumber r.rawArgs).appended).toList)
        acc
      = acc ++ (results.filter (fun r => r.status != ST_OK)).map
          (fun r => unfinishedLine r.taskNumber r.rawArgs) := by
  induction results generalizing acc with
  | nil => simp
  | cons r rs ih =>
    have hr := h r (List.mem_cons_self r rs)
    have hrs : ∀ x ∈ rs, x.status = ST_OK ∨ x.status = ST_MEM_ERR ∨
        x.status = ST_FORK_ERR ∨ x.status = ST_TASK_KILLED :=
      fun x hx => h x (List.mem_cons_of_mem r hx)
    rw [List.foldl_cons, List.filter_cons]
    rcases hr with h0 | h0 | h0 | h0
    · have hc : (masterClassify r.status r.taskNumber r.rawArgs).appended = none := by
        simp [masterClassify, h0, ST_OK, ST_MEM_ERR, ST_FORK_ERR, ST_TASK_KILLED]
      have hp : (r.status != ST_OK) = false := by simp [h0]
      rw [hp, if_neg (by simp)]
      simpa [hc] using ih acc hrs
    all_goals
      have hc : (masterClassify r.status r.taskNumber r.rawArgs).appended
          = some (unfinishedLine r.taskNumber r.rawArgs) := by
        simp [masterClassify, h0, ST_OK, ST_MEM_ERR, ST_FORK_ERR, ST_TASK_KILLED]
    all_goals
      have hp : (r.status != ST_OK) = true := by
        simp [h0, ST_OK, ST_MEM_ERR, ST_FORK_ERR, ST_TASK_KILLED]
    all_goals
      rw [hp, if_pos rfl]
      simp only [hc, Option.toList_some]
      rw [ih (acc ++ [unfinishedLine r.taskNumber r.rawArgs]) hrs]
      simp

/-- C3: at the end of a run `unfinished_tasks.txt` (truncated at startup)
holds exactly one line `"<task_id>,<raw_args>"` per received result whose
status is not OK — the codes `ST_MEM_ERR`, `ST_FORK_ERR`, `ST_TASK_KILLED` —
in observation order, and no line for OK results, for any run whose received
statuses are among the four protocol codes. -/
theorem c3_unfinished_tasks_content (results : List RecvResult)
    (h : ∀ r ∈ results, r.status = ST_OK ∨ r.status = ST_MEM_ERR ∨
      r.status = ST_FORK_ERR ∨ r.status = ST_TASK_KILLED) :
    masterRecordResults results
      = (results.filter (fun r => r.status != ST_OK)).map
          (fun r => unfinishedLine r.taskNumber r.rawArgs) := by
  simpa [masterRecordResults] using record_results_from [] results h

/-- C3 witness: a concrete run with one OK, one killed and one fork-error
result leaves exactly the two non-OK lines, in order. -/
theorem c3_witness :
    masterRecordResults [⟨ST_OK, 1, "a"⟩, ⟨ST_TASK_KILLED, 2, "b"⟩, ⟨ST_FORK_ERR, 3, "c"⟩]
      = ([⟨ST_OK, 1, "a"⟩, ⟨ST_TASK_KILLED, 2, "b"⟩,
          (⟨ST_FORK_ERR, 3, "c"⟩ : RecvResult)].filter (fun r => r.status != ST_OK)).map
          (fun r => unfinishedLine r.taskNumber r.rawArgs) :=
  c3_unfinished_tasks_content _ (by decide)

/-- C7 counterexample: the master does not skip to the first comma; it skips
`strlen(sprintf("%d", taskNumber)) + 1` characters.  On the data line
`"007,x\n"`, `sscanf` reads the id 7, whose printed form `"7"` has length 1,
so the packed raw-argument string is `"7,x"` — not the content after the
first comma, which is `"x"`. -/
theorem c7_counterexample :
    dispatchRawArgs "007,x\n" = some (7, "7,x")
    ∧ claimRawArgs "007,x\n" = "x"
    ∧ ("7,x" : String) ≠ "x" :=
  ⟨by decide, by decide, by decide⟩

/-- C7 (amended): for a data line whose first field is exactly the canonical
decimal representation of the task id — the line is
`<decimal id>,<rest>\n` and `sscanf("%d")` reads that id back — the
raw-argument string the master packs (and the worker receives byte-for-byte
through `pvm_upkstr`) is exactly `rest`, the content after the first comma
with the trailing newline removed. -/
theorem c7_amended_roundtrip (id : Int) (rest line : String)
    (hline : line = toString id ++ "," ++ rest ++ "\n")
    (hparse : sscanfD line.data = some id) :
    dispatchRawArgs line = some (id, rest) := by
  subst hline
  unfold dispatchRawArgs
  rw [hparse]
  show some (id, String.mk ((((toString id ++ "," ++ rest ++ "\n").data).dropLast).drop
      ((toString id).length + 1))) = some (id, rest)
  have hdata : (toString id ++ "," ++ rest ++ "\n").data
      = ((toString id).data ++ [','] ++ rest.data) ++ ['\n'] := rfl
  have hlen : ((toString id).data ++ [',']).length = (toString id).length + 1 := by
    rw [List.length_append]
    rfl
  have hdrop : (((toString id).data ++ [',']) ++ rest.data).drop ((toString id).length + 1)
      = rest.data := by
    rw [← hlen]
    exact List.drop_left _ _
  rw [hdata, List.dropLast_concat, hdrop]

/-- C7 witness: the canonical line `"1,2,3\n"` round-trips to `"2,3"`. -/
theorem c7_witness : dispatchRawArgs "1,2,3\n" = some (1, "2,3") :=
  c7_amended_roundtrip 1 "2,3" "1,2,3\n" (by decide) (by decide)

/-- C8: starting the PVM daemon retries on `PvmDupHost` at most 3 times
after the initial attempt (never more than 4 attempts in total), each
duplicate report is followed by `pvm_halt()` and removal of the `/tmp/pvm*`
scratch state before the retry, and the loop returns the duplicate-host
exit code exactly when all 4 attempts report a duplicate host. -/
theorem c8_duphost_retry_discipline (outcome : Nat → Bool) :
    (((pvmdStart outcome).2 = none) ↔
      (outcome 0 = true ∧ outcome 1 = true ∧ outcome 2 = true ∧ outcome 3 = true))
    ∧ (∀ n, (pvmdStart outcome).2 = some n → n ≤ 4)
    ∧ (∀ m, m ≤ 3 → (∀ k, k < m → outcome k = true) → outcome m = false →
        (pvmdStart outcome).1
          = (List.range m).foldr
              (fun k acc => .attempt k :: .halt :: .rmScratch :: acc) [.attempt m])
    ∧ ((outcome 0 = true ∧ outcome 1 = true ∧ outcome 2 = true ∧ outcome 3 = true) →
        (pvmdStart outcome).1
          = (List.range 4).foldr
              (fun k acc => .attempt k :: .halt :: .rmScratch :: acc) []) := by
  refine ⟨?_, ?_, ?_, ?_⟩
  · cases h0 : outcome 0 <;> cases h1 : outcome 1 <;> cases h2 : outcome 2 <;>
      cases h3 : outcome 3 <;> simp [pvmdStart, pvmdLoop, h0, h1, h2, h3]
  · intro n hn
    cases h0 : outcome 0 <;> cases h1 : outcome 1 <;> cases h2 : outcome 2 <;>
      cases h3 : outcome 3 <;> simp [pvmdStart, pvmdLoop, h0, h1, h2, h3] at hn <;> omega
  · intro m hm hk hf
    interval_cases m
    · simp [pvmdStart, pvmdLoop, hf]
    · have h0 := hk 0 (by omega)
      simp [pvmdStart, pvmdLoop, h0, hf, List.range_succ]
    · have h0 := hk 0 (by omega)
      have h1 := hk 1 (by omega)
      simp [pvmdStart, pvmdLoop, h0, h1, hf, List.range_succ]
    · have h0 := hk 0 (by omega)
      have h1 := hk 1 (by omega)
      have h2 := hk 2 (by omega)
      simp [pvmdStart, pvmdLoop, h0, h1, h2, hf, List.range_succ]
  · rintro ⟨h0, h1, h2, h3⟩
    simp [pvmdStart, pvmdLoop, h0, h1, h2, h3, List.range_succ]

/-- C8 witness: when every attempt reports a duplicate host, the bring-up
fails with the duplicate-host exit code. -/
theorem c8_witness : (pvmdStart (fun _ => true)).2 = none :=
  (c8_duphost_retry_discipline (fun _ => true)).1.mpr (by decide)

/-! ## Trace lemmas for the scheduling claims -/

/-- Counting over `List.range`: each index below `N` occurs exactly once. -/
theorem count_range_eq (i N : Nat) : (List.range N).count i = if i < N then 1 else 0 := by
  by_cases hi : i < N
  · simp [hi, List.count_eq_one_of_mem (List.nodup_range N) (List.mem_range.mpr hi)]
  · have hnm : i ∉ List.range N := by
      simp only [List.mem_range]
      omega
    simp [hi, List.count_eq_zero_of_not_mem hnm]

/-- A duplicate-free list of `N` naturals all below `N` contains each
`i < N` exactly once and nothing else. -/
theorem count_of_nodup_bounded {l : List Nat} {N : Nat} (hlen : l.length = N)
    (hlt : ∀ x ∈ l, x < N) (hnd : l.Nodup) (i : Nat) :
    l.count i = if i < N then 1 else 0 := by
  by_cases hi : i < N
  · have hsub : l.toFinset ⊆ Finset.range N := fun x hx =>
      Finset.mem_range.mpr (hlt x (List.mem_toFinset.mp hx))
    have hcard : (Finset.range N).card ≤ l.toFinset.card := by
      rw [List.toFinset_card_of_nodup hnd, hlen, Finset.card_range]
    have heq := Finset.eq_of_subset_of_card_le hsub hcard
    have hmem : i ∈ l := by
      have hin : i ∈ l.toFinset := by
        rw [heq]
        exact Finset.mem_range.mpr hi
      exact List.mem_toFinset.mp hin
    simp [hi, List.count_eq_one_of_mem hnd hmem]
  · have hnm : i ∉ l := fun hmem => hi (hlt i hmem)
    simp [hi, List.count_eq_zero_of_not_mem hnm]

/-- A list of messages none of which satisfies `p` has `p`-count zero. -/
theorem countP_eq_zero_of_shape {l : List Msg} {p : Msg → Bool}
    (h : ∀ m ∈ l, p m = false) : l.countP p = 0 :=
  List.countP_eq_zero.mpr (by intro a ha; simp [h a ha])

/-- Every message of the spawn phase is a greeting, to a slot below `M`. -/
theorem mem_greetPhase {M : Nat} {m : Msg} (h : m ∈ greetPhase M) :
    ∃ s, s < M ∧ m = .greeting s := by
  unfold greetPhase at h
  obtain ⟨s, hs, rfl⟩ := List.mem_map.mp h
  exact ⟨s, List.mem_range.mp hs, rfl⟩

/-- Every message of the first batch is a work message, line `i` to slot
`i < N`. -/
theorem mem_firstBatch {N : Nat} {m : Msg} (h : m ∈ firstBatch N) :
    ∃ s, s < N ∧ m = .work s s := by
  unfold firstBatch at h
  obtain ⟨s, hs, rfl⟩ := List.mem_map.mp h
  exact ⟨s, List.mem_range.mp hs, rfl⟩

/-- Every message of the steady-state phase is a result or a work message. -/
theorem mem_steadyPhase (choice : Nat → Nat) :
    ∀ (r k nxt : Nat) (asg : List Nat), ∀ m ∈ (steadyPhase choice k nxt r asg).1,
      (∃ s ln, m = .result s ln) ∨ (∃ s ln, m = .work s ln) := by
  intro r
  induction r with
  | zero =>
    intro k nxt asg m hm
    simp [steadyPhase] at hm
  | succ n ih =>
    intro k nxt asg m hm
    simp only [steadyPhase, List.mem_cons] at hm
    rcases hm with rfl | rfl | hm
    · exact Or.inl ⟨_, _, rfl⟩
    · exact Or.inr ⟨_, _, rfl⟩
    · exact ih (k + 1) (nxt + 1) (asg.set (choice k) nxt) m hm

/-- Every message of the drain phase is a result or a stop message. -/
theorem mem_drainPhase (choice : Nat → Nat) :
    ∀ (r k : Nat) (asg : List Nat), ∀ m ∈ drainPhase choice k r asg,
      (∃ s ln, m = .result s ln) ∨ (∃ s, m = .stop s) := by
  intro r
  induction r with
  | zero =>
    intro k asg m hm
    simp [drainPhase] at hm
  | succ n ih =>
    intro k asg m hm
    simp only [drainPhase, List.mem_cons] at hm
    rcases hm with rfl | rfl | hm
    · exact Or.inl ⟨_, _, rfl⟩
    · exact Or.inr ⟨_, rfl⟩
    · exact ih (k + 1) asg m hm

/-- Greeting count of the spawn phase. -/
theorem greetPhase_count_greet (M i : Nat) :
    (greetPhase M).countP (isGreetTo i) = if i < M then 1 else 0 := by
  unfold greetPhase
  rw [List.countP_map]
  have h1 : (isGreetTo i ∘ Msg.greeting) = (fun s => s == i) := rfl
  rw [h1]
  have h2 : (List.range M).countP (fun s => s == i) = (List.range M).count i := rfl
  rw [h2, count_range_eq]

/-- Work count of the first batch. -/
theorem firstBatch_count_work (N i : Nat) :
    (firstBatch N).countP (isWorkTo i) = if i < N then 1 else 0 := by
  unfold firstBatch
  rw [List.countP_map]
  have h1 : ((isWorkTo i) ∘ fun j => Msg.work j j) = (fun j => j == i) := rfl
  rw [h1]
  have h2 : (List.range N).countP (fun j => j == i) = (List.range N).count i := rfl
  rw [h2, count_range_eq]

/-- In the steady-state phase each receive from a slot is answered by one
work message to that same slot, so the per-slot work and result counts
agree. -/
theorem steadyPhase_count_work_eq_result (choice : Nat → Nat) (i : Nat) :
    ∀ (r k nxt : Nat) (asg : List Nat),
      (steadyPhase choice k nxt r asg).1.countP (isWorkTo i)
        = (steadyPhase choice k nxt r asg).1.countP (isResultFrom i) := by
  intro r
  induction r with
  | zero => intro k nxt asg; rfl
  | succ n ih =>
    intro k nxt asg
    simp only [steadyPhase, List.countP_cons]
    rw [ih (k + 1) (nxt + 1) (asg.set (choice k) nxt)]
    have h1 : isWorkTo i (Msg.result (choice k) (asg.getD (choice k) 0)) = false := rfl
    have h2 : isResultFrom i (Msg.work (choice k) nxt) = false := rfl
    have h3 : isWorkTo i (Msg.work (choice k) nxt) = (choice k == i) := rfl
    have h4 : isResultFrom i (Msg.result (choice k) (asg.getD (choice k) 0))
        = (choice k == i) := rfl
    rw [h1, h2, h3, h4]
    exact Nat.add_right_comm _ _ _

/-- Results of the drain phase: one per drain receive, from the chosen
slot. -/
theorem drainPhase_count_result (choice : Nat → Nat) (i : Nat) :
    ∀ (r k : Nat) (asg : List Nat),
      (drainPhase choice k r asg).countP (isResultFrom i)
        = ((List.range' k r).map choice).count i := by
  intro r
  induction r with
  | zero => intro k asg; rfl
  | succ n ih =>
    intro k asg
    simp only [drainPhase, List.range', List.map_cons, List.countP_cons, List.count_cons]
    rw [ih (k + 1) asg]
    have h1 : isResultFrom i (Msg.stop (choice k)) = false := rfl
    have h2 : isResultFrom i (Msg.result (choice k) (asg.getD (choice k) 0))
        = (choice k == i) := rfl
    rw [h1, h2]
    simp [List.count]

/-- Stops of the drain phase: one per drain receive, to the chosen slot. -/
theorem drainPhase_count_stop (choice : Nat → Nat) (i : Nat) :
    ∀ (r k : Nat) (asg : List Nat),
      (drainPhase choice k r asg).countP (isStopTo i)
        = ((List.range' k r).map choice).count i := by
  intro r
  induction r with
  | zero => intro k asg; rfl
  | succ n ih =>
    intro k asg
    simp only [drainPhase, List.range', List.map_cons, List.countP_cons, List.count_cons]
    rw [ih (k + 1) asg]
    have h1 : isStopTo i (Msg.result (choice k) (asg.getD (choice k) 0)) = false := rfl
    have h2 : isStopTo i (Msg.stop (choice k)) = (choice k == i) := rfl
    rw [h1, h2]
    simp [List.count]

/-- `worksOf` distributes over append. -/
theorem worksOf_append : ∀ (a b : List Msg), worksOf (a ++ b) = worksOf a ++ worksOf b := by
  intro a b
  induction a with
  | nil => rfl
  | cons m r ih => cases m <;> simp [worksOf, ih]

/-- A phase with no work messages contributes nothing to `worksOf`. -/
theorem worksOf_eq_nil_of_no_work {l : List Msg} (h : ∀ m ∈ l, isWorkMsg m = false) :
    worksOf l = [] := by
  induction l with
  | nil => rfl
  | cons m r ih =>
    have hm := h m (List.mem_cons_self m r)
    have hr : ∀ x ∈ r, isWorkMsg x = false := fun x hx => h x (List.mem_cons_of_mem m hx)
    cases m with
    | greeting s => simp [worksOf, ih hr]
    | result s ln => simp [worksOf, ih hr]
    | stop s => simp [worksOf, ih hr]
    | work s ln => simp [isWorkMsg] at hm

/-- `worksOf` over a map of work messages. -/
theorem worksOf_map_work (f g : Nat → Nat) (l : List Nat) :
    worksOf (l.map (fun i => Msg.work (f i) (g i))) = l.map (fun i => (f i, g i)) := by
  induction l with
  | nil => rfl
  | cons a r ih => simp [worksOf, ih]

/-- Work messages of the first batch: line `i` to slot `i`. -/
theorem worksOf_firstBatch (N : Nat) :
    worksOf (firstBatch N) = (List.range N).map (fun i => (i, i)) :=
  worksOf_map_work (fun i => i) (fun i => i) (List.range N)

/-- Reindexing of the steady-state work list by one position. -/
theorem map_shift (c : Nat → Nat) (k nxt n : Nat) :
    List.map (fun t => (c (k + 1 + t), nxt + 1 + t)) (List.range n)
      = List.map ((fun t => (c (k + t), nxt + t)) ∘ Nat.succ) (List.range n) := by
  apply List.map_congr_left
  intro t ht
  simp only [Function.comp_apply, Prod.mk.injEq]
  exact ⟨congrArg c (by omega), by omega⟩

/-- Work messages of the steady-state phase, in dispatch order: the `t`-th
steady receive is answered with data line `nxt + t` sent to slot
`choice (k + t)`. -/
theorem steadyPhase_worksOf (choice : Nat → Nat) :
    ∀ (r k nxt : Nat) (asg : List Nat),
      worksOf (steadyPhase choice k nxt r asg).1
        = (List.range r).map (fun t => (choice (k + t), nxt + t)) := by
  intro r
  induction r with
  | zero => intro k nxt asg; rfl
  | succ n ih =>
    intro k nxt asg
    have hstep : (steadyPhase choice k nxt (n + 1) asg).1
        = Msg.result (choice k) (asg.getD (choice k) 0) :: Msg.work (choice k) nxt ::
          (steadyPhase choice (k + 1) (nxt + 1) n (asg.set (choice k) nxt)).1 := rfl
    rw [hstep]
    show (choice k, nxt)
        :: worksOf (steadyPhase choice (k + 1) (nxt + 1) n (asg.set (choice k) nxt)).1
      = (List.range (n + 1)).map (fun t => (choice (k + t), nxt + t))
    rw [ih (k + 1) (nxt + 1) (asg.set (choice k) nxt)]
    rw [List.range_succ_eq_map, List.map_cons, List.map_map]
    congr 1
    exact map_shift choice k nxt n

/-- Each steady-state work message is immediately preceded in the phase by
the result that pulled it, from the same slot. -/
theorem steadyPhase_adjacent (choice : Nat → Nat) :
    ∀ (r k nxt : Nat) (asg : List Nat) (t : Nat), t < r →
      ∃ p q ln, (steadyPhase choice k nxt r asg).1
        = p ++ Msg.result (choice (k + t)) ln :: Msg.work (choice (k + t)) (nxt + t) :: q := by
  intro r
  induction r with
  | zero => intro k nxt asg t ht; omega
  | succ n ih =>
    intro k nxt asg t ht
    cases t with
    | zero =>
      refine ⟨[], (steadyPhase choice (k + 1) (nxt + 1) n (asg.set (choice k) nxt)).1,
        asg.getD (choice k) 0, ?_⟩
      simp [steadyPhase]
    | succ u =>
      obtain ⟨p, q, ln, hp⟩ := ih (k + 1) (nxt + 1) (asg.set (choice k) nxt) u (by omega)
      refine ⟨Msg.result (choice k) (asg.getD (choice k) 0) :: Msg.work (choice k) nxt :: p,
        q, ln, ?_⟩
      have e1 : k + (u + 1) = k + 1 + u := by omega
      have e2 : nxt + (u + 1) = nxt + 1 + u := by omega
      rw [e1, e2]
      simp [steadyPhase, hp]

/-- Per-slot message counts of a whole run, for any valid environment:
one greeting per slot, work sends equal results received, and one stop for
each of the first `min T M` slots — none for the rest. -/
theorem trace_counts (M T : Nat) (choice : Nat → Nat) (h : ValidChoice M T choice) :
    (∀ i, i < M → countGreet (runTrace M T choice) i = 1)
    ∧ (∀ i, countWork (runTrace M T choice) i = countResult (runTrace M T choice) i)
    ∧ (∀ i, countStop (runTrace M T choice) i = if i < min T M then 1 else 0) := by
  obtain ⟨hlt, hinj⟩ := h
  have hNle : min T M ≤ T := Nat.min_le_left T M
  have hdlen : ((List.range' (T - min T M) (min T M)).map choice).length = min T M := by
    simp [List.length_range']
  have hdlt : ∀ x ∈ (List.range' (T - min T M) (min T M)).map choice, x < min T M := by
    intro x hx
    obtain ⟨k, hk, rfl⟩ := List.mem_map.mp hx
    obtain ⟨hk1, hk2⟩ := List.mem_range'_1.mp hk
    exact hlt k (by omega)
  have hdnd : ((List.range' (T - min T M) (min T M)).map choice).Nodup := by
    refine List.Nodup.map_on ?_ (List.nodup_range' _ _)
    intro x hx y hy hxy
    obtain ⟨hx1, hx2⟩ := List.mem_range'_1.mp hx
    obtain ⟨hy1, hy2⟩ := List.mem_range'_1.mp hy
    rcases Nat.lt_trichotomy x y with hc | hc | hc
    · exact absurd hxy (hinj x (by omega) y (by omega) (by omega) hc)
    · exact hc
    · exact absurd hxy.symm (hinj y (by omega) x (by omega) (by omega) hc)
  have hdcount : ∀ i, ((List.range' (T - min T M) (min T M)).map choice).count i
      = if i < min T M then 1 else 0 :=
    fun i => count_of_nodup_bounded hdlen hdlt hdnd i
  have hrt : runTrace M T choice
      = greetPhase M ++ firstBatch (min T M)
        ++ (steadyPhase choice 0 (min T M) (T - min T M) (List.range (min T M))).1
        ++ drainPhase choice (T - min T M) (min T M)
            (steadyPhase choice 0 (min T M) (T - min T M) (List.range (min T M))).2 := rfl
  refine ⟨?_, ?_, ?_⟩
  · intro i hi
    unfold countGreet
    rw [hrt, List.countP_append, List.countP_append, List.countP_append,
      greetPhase_count_greet]
    have z1 : (firstBatch (min T M)).countP (isGreetTo i) = 0 :=
      countP_eq_zero_of_shape (by
        intro m hm
        obtain ⟨s, _, rfl⟩ := mem_firstBatch hm
        rfl)
    have z2 : ((steadyPhase choice 0 (min T M) (T - min T M)
        (List.range (min T M))).1).countP (isGreetTo i) = 0 :=
      countP_eq_zero_of_shape (by
        intro m hm
        rcases mem_steadyPhase choice (T - min T M) 0 (min T M) (List.range (min T M)) m hm
          with ⟨s, ln, rfl⟩ | ⟨s, ln, rfl⟩ <;> rfl)
    have z3 : (drainPhase choice (T - min T M) (min T M)
        (steadyPhase choice 0 (min T M) (T - min T M)
          (List.range (min T M))).2).countP (isGreetTo i) = 0 :=
      countP_eq_zero_of_shape (by
        intro m hm
        rcases mem_drainPhase choice (min T M) (T - min T M) _ m hm
          with ⟨s, ln, rfl⟩ | ⟨s, rfl⟩ <;> rfl)
    rw [z1, z2, z3]
    simp [hi]
  · intro i
    unfold countWork countResult
    rw [hrt, List.countP_append, List.countP_append, List.countP_append,
      List.countP_append, List.countP_append, List.countP_append]
    have g0 : (greetPhase M).countP (isWorkTo i) = 0 :=
      countP_eq_zero_of_shape (by
        intro m hm
        obtain ⟨s, _, rfl⟩ := mem_greetPhase hm
        rfl)
    have g0r : (greetPhase M).countP (isResultFrom i) = 0 :=
      countP_eq_zero_of_shape (by
        intro m hm
        obtain ⟨s, _, rfl⟩ := mem_greetPhase hm
        rfl)
    have fbr : (firstBatch (min T M)).countP (isResultFrom i) = 0 :=
      countP_eq_zero_of_shape (by
        intro m hm
        obtain ⟨s, _, rfl⟩ := mem_firstBatch hm
        rfl)
    have st := steadyPhase_count_work_eq_result choice i (T - min T M) 0 (min T M)
      (List.range (min T M))
    have dr0 : (drainPhase choice (T - min T M) (min T M)
        (steadyPhase choice 0 (min T M) (T - min T M)
          (List.range (min T M))).2).countP (isWorkTo i) = 0 :=
      countP_eq_zero_of_shape (by
        intro m hm
        rcases mem_drainPhase choice (min T M) (T - min T M) _ m hm
          with ⟨s, ln, rfl⟩ | ⟨s, rfl⟩ <;> rfl)
    have drr := drainPhase_count_result choice i (min T M) (T - min T M)
      (steadyPhase choice 0 (min T M) (T - min T M) (List.range (min T M))).2
    rw [g0, g0r, fbr, firstBatch_count_work, st, dr0, drr, hdcount i]
    omega
  · intro i
    unfold countStop
    rw [hrt, List.countP_append, List.countP_append, List.countP_append]
    have z1 : (greetPhase M).countP (isStopTo i) = 0 :=
      countP_eq_zero_of_shape (by
        intro m hm
        obtain ⟨s, _, rfl⟩ := mem_greetPhase hm
        rfl)
    have z2 : (firstBatch (min T M)).countP (isStopTo i) = 0 :=
      countP_eq_zero_of_shape (by
        intro m hm
        obtain ⟨s, _, rfl⟩ := mem_firstBatch hm
        rfl)
    have z3 : ((steadyPhase choice 0 (min T M) (T - min T M)
        (List.range (min T M))).1).countP (isStopTo i) = 0 :=
      countP_eq_zero_of_shape (by
        intro m hm
        rcases mem_steadyPhase choice (T - min T M) 0 (min T M) (List.range (min T M)) m hm
          with ⟨s, ln, rfl⟩ | ⟨s, ln, rfl⟩ <;> rfl)
    have drs := drainPhase_count_stop choice i (min T M) (T - min T M)
      (steadyPhase choice 0 (min T M) (T - min T M) (List.range (min T M))).2
    rw [z1, z2, z3, drs, hdcount i]
    simp

/-- C2 (amended): in any valid run, every slot `i < Σcores` receives exactly
one greeting; for every slot the number of work messages sent equals the
number of results received; the first `min nTasks Σcores` slots — those that
received work — get exactly one stop message each, while when
`nTasks < Σcores` the remaining slots get no stop at all; and the trace
splits into a greeting phase, a work/result phase and a result/stop phase in
that order. -/
theorem c2_slot_message_discipline (nodeCores : List Nat) (T : Nat) (choice : Nat → Nat)
    (h : ValidChoice (maxConcurrentTasks nodeCores) T choice) :
    (∀ i, i < maxConcurrentTasks nodeCores →
      countGreet (runTrace (maxConcurrentTasks nodeCores) T choice) i = 1)
    ∧ (∀ i, countWork (runTrace (maxConcurrentTasks nodeCores) T choice) i
        = countResult (runTrace (maxConcurrentTasks nodeCores) T choice) i)
    ∧ (∀ i, countStop (runTrace (maxConcurrentTasks nodeCores) T choice) i
        = if i < min T (maxConcurrentTasks nodeCores) then 1 else 0)
    ∧ (∃ G W D, runTrace (maxConcurrentTasks nodeCores) T choice = G ++ W ++ D
        ∧ (∀ m ∈ G, isGreetMsg m = true)
        ∧ (∀ m ∈ W, (isWorkMsg m || isResultMsg m) = true)
        ∧ (∀ m ∈ D, (isResultMsg m || isStopMsg m) = true)) := by
  obtain ⟨hg, hw, hs⟩ := trace_counts (maxConcurrentTasks nodeCores) T choice h
  refine ⟨hg, hw, hs, ?_⟩
  refine ⟨greetPhase (maxConcurrentTasks nodeCores),
    firstBatch (min T (maxConcurrentTasks nodeCores))
      ++ (steadyPhase choice 0 (min T (maxConcurrentTasks nodeCores))
          (T - min T (maxConcurrentTasks nodeCores))
          (List.range (min T (maxConcurrentTasks nodeCores)))).1,
    drainPhase choice (T - min T (maxConcurrentTasks nodeCores))
      (min T (maxConcurrentTasks nodeCores))
      (steadyPhase choice 0 (min T (maxConcurrentTasks nodeCores))
        (T - min T (maxConcurrentTasks nodeCores))
        (List.range (min T (maxConcurrentTasks nodeCores)))).2, ?_, ?_, ?_, ?_⟩
  · show greetPhase (maxConcurrentTasks nodeCores)
        ++ firstBatch (min T (maxConcurrentTasks nodeCores))
        ++ (steadyPhase choice 0 (min T (maxConcurrentTasks nodeCores))
            (T - min T (maxConcurrentTasks nodeCores))
            (List.range (min T (maxConcurrentTasks nodeCores)))).1
        ++ drainPhase choice (T - min T (maxConcurrentTasks nodeCores))
            (min T (maxConcurrentTasks nodeCores))
            (steadyPhase choice 0 (min T (maxConcurrentTasks nodeCores))
              (T - min T (maxConcurrentTasks nodeCores))
              (List.range (min T (maxConcurrentTasks nodeCores)))).2
      = _
    simp [List.append_assoc]
  · intro m hm
    obtain ⟨s, _, rfl⟩ := mem_greetPhase hm
    rfl
  · intro m hm
    rcases List.mem_append.mp hm with hm | hm
    · obtain ⟨s, _, rfl⟩ := mem_firstBatch hm
      rfl
    · rcases mem_steadyPhase choice (T - min T (maxConcurrentTasks nodeCores)) 0
          (min T (maxConcurrentTasks nodeCores))
          (List.range (min T (maxConcurrentTasks nodeCores))) m hm
        with ⟨s, ln, rfl⟩ | ⟨s, ln, rfl⟩ <;> rfl
  · intro m hm
    rcases mem_drainPhase choice (min T (maxConcurrentTasks nodeCores))
        (T - min T (maxConcurrentTasks nodeCores)) _ m hm
      with ⟨s, ln, rfl⟩ | ⟨s, rfl⟩ <;> rfl

/-- C2 counterexample: with node file `⟨1 core, 1 core⟩` (two slots) and a
single task, the environment choice sending the only result from slot 0 is
valid, yet slot 1 — inside `[0, Σcores)` — receives its greeting but zero
stop messages, refuting "every slot … then exactly one stop message". -/
theorem c2_counterexample :
    ValidChoice (maxConcurrentTasks [1, 1]) 1 (fun _ => 0)
    ∧ countStop (runTrace (maxConcurrentTasks [1, 1]) 1 (fun _ => 0)) 1 = 0
    ∧ countGreet (runTrace (maxConcurrentTasks [1, 1]) 1 (fun _ => 0)) 1 = 1 :=
  ⟨by decide, by decide, by decide⟩

/-- C2 witness: a valid two-slot three-task run, instantiated at slot 0. -/
theorem c2_witness :
    countGreet (runTrace (maxConcurrentTasks [1, 1]) 3
      (fun k => if k = 1 then 1 else 0)) 0 = 1 :=
  (c2_slot_message_discipline [1, 1] 3 (fun k => if k = 1 then 1 else 0)
    (by decide)).1 0 (by decide)

/-- C6: the work messages of any run are exactly: data line `i` to slot `i`
for the first `N = min nTasks Σcores` lines, followed by one work message
per steady-state receive, carrying the data lines in file order; and each
steady-state work message for line `N + t` appears immediately after a
result from the very slot it is sent to — the pull model. -/
theorem c6_first_batch_then_pull (nodeCores : List Nat) (T : Nat) (choice : Nat → Nat) :
    worksOf (runTrace (maxConcurrentTasks nodeCores) T choice)
      = (List.range (min T (maxConcurrentTasks nodeCores))).map (fun i => (i, i))
        ++ (List.range (T - min T (maxConcurrentTasks nodeCores))).map
            (fun t => (choice t, min T (maxConcurrentTasks nodeCores) + t))
    ∧ (∀ t, t < T - min T (maxConcurrentTasks nodeCores) →
        ∃ p q ln, runTrace (maxConcurrentTasks nodeCores) T choice
          = p ++ Msg.result (choice t) ln
              :: Msg.work (choice t) (min T (maxConcurrentTasks nodeCores) + t) :: q) := by
  have hrt : runTrace (maxConcurrentTasks nodeCores) T choice
      = greetPhase (maxConcurrentTasks nodeCores)
        ++ firstBatch (min T (maxConcurrentTasks nodeCores))
        ++ (steadyPhase choice 0 (min T (maxConcurrentTasks nodeCores))
            (T - min T (maxConcurrentTasks nodeCores))
            (List.range (min T (maxConcurrentTasks nodeCores)))).1
        ++ drainPhase choice (T - min T (maxConcurrentTasks nodeCores))
            (min T (maxConcurrentTasks nodeCores))
            (steadyPhase choice 0 (min T (maxConcurrentTasks nodeCores))
              (T - min T (maxConcurrentTasks nodeCores))
              (List.range (min T (maxConcurrentTasks nodeCores)))).2 := rfl
  constructor
  · rw [hrt, worksOf_append, worksOf_append, worksOf_append]
    rw [@worksOf_eq_nil_of_no_work (greetPhase (maxConcurrentTasks nodeCores)) (by
      intro m hm
      obtain ⟨s, _, rfl⟩ := mem_greetPhase hm
      rfl)]
    rw [@worksOf_eq_nil_of_no_work
      (drainPhase choice (T - min T (maxConcurrentTasks nodeCores))
        (min T (maxConcurrentTasks nodeCores))
        (steadyPhase choice 0 (min T (maxConcurrentTasks nodeCores))
          (T - min T (maxConcurrentTasks nodeCores))
          (List.range (min T (maxConcurrentTasks nodeCores)))).2) (by
      intro m hm
      rcases mem_drainPhase choice (min T (maxConcurrentTasks nodeCores))
          (T - min T (maxConcurrentTasks nodeCores)) _ m hm
        with ⟨s, ln, rfl⟩ | ⟨s, rfl⟩ <;> rfl)]
    rw [worksOf_firstBatch, steadyPhase_worksOf]
    simp
  · intro t ht
    obtain ⟨p, q, ln, hp⟩ := steadyPhase_adjacent choice
      (T - min T (maxConcurrentTasks nodeCores)) 0 (min T (maxConcurrentTasks nodeCores))
      (List.range (min T (maxConcurrentTasks nodeCores))) t ht
    refine ⟨greetPhase (maxConcurrentTasks nodeCores)
        ++ firstBatch (min T (maxConcurrentTasks nodeCores)) ++ p,
      q ++ drainPhase choice (T - min T (maxConcurrentTasks nodeCores))
        (min T (maxConcurrentTasks nodeCores))
        (steadyPhase choice 0 (min T (maxConcurrentTasks nodeCores))
          (T - min T (maxConcurrentTasks nodeCores))
          (List.range (min T (maxConcurrentTasks nodeCores)))).2, ln, ?_⟩
    rw [hrt, hp]
    simp [List.append_assoc]

/-- C6 witness: one node with two cores and three tasks — the first two
lines go to slots 0 and 1, line 2 follows the first steady-state result. -/
theorem c6_witness :
    worksOf (runTrace (maxConcurrentTasks [2]) 3 (fun k => k % 2))
      = (List.range (min 3 (maxConcurrentTasks [2]))).map (fun i => (i, i))
        ++ (List.range (3 - min 3 (maxConcurrentTasks [2]))).map
            (fun t => ((fun k => k % 2) t, min 3 (maxConcurrentTasks [2]) + t)) :=
  (c6_first_batch_then_pull [2] 3 (fun k => k % 2)).1

end PBala
